import Mathlib

/-! The bootstrap wiring of gke-agent (`main.go`)

A shallow embedding of `src/main.go`: the model selector at the top of `main`,
the template loader `loadSubAgents`, the conversion of sub-agents into tools,
and the sequence of fatal checks that ends in the launcher call.

Modelling decisions.

* Go strings are modelled by Lean strings; `strings.HasSuffix` and
  `strings.TrimSuffix` are transcribed from the Go standard library
  (length comparison, slice, comparison).  The suffix used by the program,
  ".tmpl", is ASCII.
* Everything the program calls outside of its own file (the environment, the
  file system, `filepath.Join`, `gemini.NewModel`, `llmagent.New`, the launcher)
  is a field of a `World`; calls are deterministic functions of their
  arguments and the world does not change during a run.
* A Go result pair `(value, error)` coming from the outside is an `Except`;
  the pair returned by `loadSubAgents` itself is kept as a pair
  `List A × Option E`, so that "no agents together with an error" is a fact to
  be proved and not a consequence of the type.
* Every function returns, next to its value, the list of calls it made, in
  the order in which it made them.
-/

namespace GkeAgent

/-! ## Constants of `main.go` -/

/-- The constant `rootTemplatePath`. -/
def rootTemplatePath : String := "templates/root.tmpl"

/-- The constant `subAgentsDir`. -/
def subAgentsDir : String := "templates/sub-agents"

/-- The constant `modelName`. -/
def modelName : String := "gemini-3-flash-preview"

/-! ## The two functions of package `strings` used by the loader -/

/-- Go: `len(s) >= len(suffix) && s[len(s)-len(suffix):] == suffix`. -/
def HasSuffix (s suffix : String) : Bool :=
  decide (suffix.data.length ≤ s.data.length) &&
    decide (s.data.drop (s.data.length - suffix.data.length) = suffix.data)

/-- Go: `if HasSuffix(s, suffix) { return s[:len(s)-len(suffix)] }; return s`. -/
def TrimSuffix (s suffix : String) : String :=
  if HasSuffix s suffix then
    String.mk (s.data.take (s.data.length - suffix.data.length))
  else s

/-- Go: `strings.Contains(s, substr)`, as a decidable proposition. -/
def Contains (s substr : String) : Prop := substr.data <:+: s.data

instance (s substr : String) : Decidable (Contains s substr) := by
  unfold Contains; infer_instance

/-! ## Data of the external libraries -/

/-- The enumeration `genai.Backend`; its zero value is `BackendUnspecified`. -/
inductive Backend where
  | BackendUnspecified
  | BackendGeminiAPI
  | BackendVertexAI
  deriving DecidableEq, Repr

/-- The fields of `genai.ClientConfig` that `main` sets; a field that a
composite literal leaves out has Go's zero value. -/
structure ClientConfig where
  APIKey : String := ""
  Backend : Backend := Backend.BackendUnspecified
  Project : String := ""
  Location : String := ""
  deriving DecidableEq, Repr

/-- An entry of a directory listing (`fs.DirEntry`): `Name()` and `IsDir()`. -/
structure DirEntry where
  Name : String
  IsDir : Bool
  deriving DecidableEq, Repr

/-- The optional second argument of `agenttool.New`. -/
structure AgenttoolConfig where
  SkipSummarization : Bool
  deriving DecidableEq, Repr

/-- The value `agenttool.New(sa, cfg)`: a tool wrapping the agent `sa`;
`cfg = none` is Go's `nil`. -/
structure Tool (A : Type) where
  agent : A
  cfg : Option AgenttoolConfig
  deriving DecidableEq, Repr

/-- The fields of `llmagent.Config` that the program sets. -/
structure Config (M A : Type) where
  Name : String
  Model : M
  Description : String
  Instruction : String
  Tools : List (Tool A) := []
  deriving DecidableEq, Repr

/-- The value `launcher.Config` built by `main`: its `AgentLoader` is
`agent.NewSingleLoader(rootAgent)`, recorded by the agent it wraps. -/
structure LauncherConfig (A : Type) where
  AgentLoader : A
  deriving DecidableEq, Repr

/-- Everything outside of `main.go`: `M` is the type of model handles, `A` of
agents, `E` of (non-nil) errors. -/
structure World (M A E : Type) where
  /-- The function `os.Getenv`: the empty string for an unset variable. -/
  Getenv : String → String
  /-- The slice `os.Args`. -/
  Args : List String
  /-- The function `os.ReadDir`. -/
  ReadDir : String → Except E (List DirEntry)
  /-- The function `os.ReadFile`, followed by the conversion `string(content)`. -/
  ReadFile : String → Except E String
  /-- The function `filepath.Join` on two elements. -/
  Join : String → String → String
  /-- The function `gemini.NewModel`. -/
  NewModel : String → ClientConfig → Except E M
  /-- The function `llmagent.New`. -/
  New : Config M A → Except E A
  /-- The method `Execute` of `full.NewLauncher()`: `none` is a nil error. -/
  Execute : LauncherConfig A → List String → Option E

/-- The calls a run makes, in order. -/
inductive Event (M A E : Type) where
  | NewModel (name : String) (cfg : ClientConfig)
  | ReadDir (dir : String)
  | ReadFile (path : String)
  | Printf (msg : String)
  | LlmagentNew (cfg : Config M A)
  | Execute (cfg : LauncherConfig A) (args : List String)
  | Fatalf (msg : String) (err : E)
  deriving DecidableEq, Repr

/-! ## The program -/

section Program

variable {M A E : Type}

/-- The value of the variable `clientConfig` of `main` once the
model-selection block (the reads of the environment and the `if`/`else`
around the two composite literals) has run. -/
def clientConfig (w : World M A E) : ClientConfig :=
  let projectID := w.Getenv "GOOGLE_CLOUD_PROJECT"
  let location := w.Getenv "GOOGLE_CLOUD_LOCATION"
  if projectID ≠ "" ∧ location ≠ "" then
    { Project := projectID, Location := location, Backend := Backend.BackendVertexAI }
  else
    let apiKey := w.Getenv "GEMINI_API_KEY"
    let apiKey := if apiKey = "" then w.Getenv "GOOGLE_API_KEY" else apiKey
    { APIKey := apiKey }

/-- The composite literal `llmagent.Config` in the body of the loop of
`loadSubAgents`, for the entry name `fileName` and the file content `content`;
`fmt.Sprintf` with one `%s` verb is a concatenation. -/
def subAgentConfig (model : M) (fileName content : String) : Config M A :=
  let agentName := TrimSuffix fileName ".tmpl"
  { Name := agentName
    Model := model
    Description := "Specialist agent for generating " ++ agentName ++ " Kubernetes manifests."
    Instruction := content }

/-- The loop `for _, file := range files` of `loadSubAgents`, started with
the slice `agents` accumulated so far.  The result is the pair returned by
`loadSubAgents` (from inside the loop on an error, after the loop otherwise)
and the calls made. -/
def loadLoop (w : World M A E) (model : M) (dir : String) :
    List DirEntry → List A → (List A × Option E) × List (Event M A E)
  | [], agents => ((agents, none), [])
  | file :: files, agents =>
    if file.IsDir || !HasSuffix file.Name ".tmpl" then
      loadLoop w model dir files agents
    else
      let path := w.Join dir file.Name
      match w.ReadFile path with
      | .error err => (([], some err), [Event.ReadFile path])
      | .ok content =>
        let agentName := TrimSuffix file.Name ".tmpl"
        let cfg : Config M A := subAgentConfig model file.Name content
        let calls : List (Event M A E) :=
          [Event.ReadFile path, Event.Printf ("Loading sub-agent: " ++ agentName),
            Event.LlmagentNew cfg]
        match w.New cfg with
        | .error err => (([], some err), calls)
        | .ok sa =>
          let r := loadLoop w model dir files (agents ++ [sa])
          (r.1, calls ++ r.2)

/-- The function `loadSubAgents`: the returned pair `(agents, err)` and the
calls made. -/
def loadSubAgents (w : World M A E) (model : M) (dir : String) :
    (List A × Option E) × List (Event M A E) :=
  match w.ReadDir dir with
  | .error err => (([], some err), [Event.ReadDir dir])
  | .ok files =>
    let r := loadLoop w model dir files []
    (r.1, Event.ReadDir dir :: r.2)

/-- The call `agenttool.New(sa, cfg)`. -/
def agenttoolNew (sa : A) (cfg : Option AgenttoolConfig) : Tool A :=
  { agent := sa, cfg := cfg }

/-- The value of `agentTools` after the loop
`for _, sa := range subAgents { agentTools = append(agentTools, agenttool.New(sa, nil)) }`. -/
def agentTools (subAgents : List A) : List (Tool A) :=
  subAgents.foldl (fun tools sa => tools ++ [agenttoolNew sa none]) []

/-- The composite literal `llmagent.Config` of the root agent. -/
def rootConfig (model : M) (rootInstruction : String) (tools : List (Tool A)) : Config M A :=
  { Name := "K8sOrchestrator"
    Model := model
    Description := "A specialized orchestrator for generating Kubernetes manifests. It delegates to sub-agents for specific resource types."
    Instruction := rootInstruction
    Tools := tools }

/-- How a run of `main` ends: in `log.Fatalf` (the process exits with a
non-zero status) or by returning from `main`. -/
inductive Outcome (E : Type) where
  | Fatal (msg : String) (err : E)
  | Returned
  deriving DecidableEq, Repr

/-- The function `main`: how the run ends and the calls made.  The message of
a `log.Fatalf` is kept as its format string and the error it formats. -/
def main (w : World M A E) : Outcome E × List (Event M A E) :=
  let ev0 : Event M A E := Event.NewModel modelName (clientConfig w)
  match w.NewModel modelName (clientConfig w) with
  | .error err =>
    (Outcome.Fatal "Failed to create model: %v" err,
      [ev0, Event.Fatalf "Failed to create model: %v" err])
  | .ok model =>
    let r := loadSubAgents w model subAgentsDir
    match r.1.2 with
    | some err =>
      (Outcome.Fatal "Failed to load sub-agents: %v" err,
        ev0 :: r.2 ++ [Event.Fatalf "Failed to load sub-agents: %v" err])
    | none =>
      let subAgents := r.1.1
      let tools := agentTools subAgents
      let tr1 : List (Event M A E) := ev0 :: r.2 ++ [Event.ReadFile rootTemplatePath]
      match w.ReadFile rootTemplatePath with
      | .error err =>
        (Outcome.Fatal "Failed to read root template: %v" err,
          tr1 ++ [Event.Fatalf "Failed to read root template: %v" err])
      | .ok rootInstruction =>
        let cfg : Config M A := rootConfig model rootInstruction tools
        let tr2 := tr1 ++ [Event.LlmagentNew cfg]
        match w.New cfg with
        | .error err =>
          (Outcome.Fatal "Failed to create root agent: %v" err,
            tr2 ++ [Event.Fatalf "Failed to create root agent: %v" err])
        | .ok rootAgent =>
          let config : LauncherConfig A := { AgentLoader := rootAgent }
          let tr3 := tr2 ++ [Event.Execute config (w.Args.drop 1)]
          match w.Execute config (w.Args.drop 1) with
          | some err =>
            (Outcome.Fatal "Agent execution failed: %v" err,
              tr3 ++ [Event.Fatalf "Agent execution failed: %v" err])
          | none => (Outcome.Returned, tr3)

end Program

/-! ## A concrete world, for evaluation

Model handles are `Unit`, an agent is represented by the configuration it was
built from, errors are strings. -/

/-- The agents of the concrete worlds: the name, description, instruction and
number of tools they were configured with. -/
structure SimAgent where
  Name : String
  Description : String
  Instruction : String
  Tools : Nat
  deriving DecidableEq, Repr

/-- A world given by an environment, a listing of the template directory and
the contents of files (a missing path is an error); every construction
succeeds and the launcher returns nil. -/
def simWorld (env : List (String × String)) (listing : Except String (List DirEntry))
    (fs : List (String × String)) : World Unit SimAgent String where
  Getenv := fun k => (env.lookup k).getD ""
  Args := ["gke-agent", "console"]
  ReadDir := fun dir => if dir = subAgentsDir then listing else .error ("open " ++ dir)
  ReadFile := fun path =>
    match fs.lookup path with
    | some c => .ok c
    | none => .error ("open " ++ path)
  Join := fun dir name => dir ++ "/" ++ name
  NewModel := fun _ _ => .ok ()
  New := fun cfg =>
    .ok { Name := cfg.Name, Description := cfg.Description, Instruction := cfg.Instruction,
          Tools := cfg.Tools.length }
  Execute := fun _ _ => none

/-- A listing of the template directory that is not sorted and holds two
template files, a file without the suffix and a subdirectory with it. -/
def demoListing : List DirEntry :=
  [⟨"service.tmpl", false⟩, ⟨"README.md", false⟩, ⟨"old.tmpl", true⟩,
    ⟨"deployment.tmpl", false⟩]

/-- The readable files of the demonstration: the two templates and the root
template (the file without the suffix is not readable). -/
def demoFiles : List (String × String) :=
  [("templates/sub-agents/service.tmpl", "S"), ("templates/sub-agents/deployment.tmpl", "T"),
    ("templates/root.tmpl", "R")]

/-- The demonstration world: no environment variable is set. -/
def demoWorld : World Unit SimAgent String :=
  simWorld [] (.ok demoListing) demoFiles

/-- The demonstration world without the file `deployment.tmpl`, which is
still listed, and without the root template. -/
def brokenWorld : World Unit SimAgent String :=
  simWorld [("GOOGLE_CLOUD_PROJECT", "my-project")] (.ok demoListing)
    [("templates/sub-agents/service.tmpl", "S")]

/-- A world whose template directory holds no template file, with both key
variables and the cloud pair set. -/
def emptyWorld : World Unit SimAgent String :=
  simWorld [("GOOGLE_CLOUD_PROJECT", "my-project"), ("GOOGLE_CLOUD_LOCATION", "us-central1"),
      ("GEMINI_API_KEY", "k1"), ("GOOGLE_API_KEY", "k2")]
    (.ok [⟨"README.md", false⟩, ⟨"old.tmpl", true⟩]) [("templates/root.tmpl", "R")]

/-- A world with both key variables set and no cloud location. -/
def keyWorld : World Unit SimAgent String :=
  simWorld [("GOOGLE_CLOUD_PROJECT", "my-project"), ("GEMINI_API_KEY", "k1"),
      ("GOOGLE_API_KEY", "k2")]
    (.error "open templates/sub-agents: no such file or directory") []

/-- The demonstration world without the root template. -/
def rootlessWorld : World Unit SimAgent String :=
  simWorld [] (.ok demoListing)
    [("templates/sub-agents/service.tmpl", "S"), ("templates/sub-agents/deployment.tmpl", "T")]

/-- A world whose template directory holds a file with a doubled suffix and
a file whose whole name is the suffix. -/
def oddWorld : World Unit SimAgent String :=
  simWorld [] (.ok [⟨"a.tmpl.tmpl", false⟩, ⟨".tmpl", false⟩])
    [("templates/sub-agents/a.tmpl.tmpl", "A"), ("templates/sub-agents/.tmpl", "B"),
      ("templates/root.tmpl", "R")]

/-! ## Vocabulary of the statements -/

section Vocabulary

variable {M A E : Type}

/-- An entry the loader has to load: not a directory, and its name ends in
".tmpl". -/
def isTemplateFile (file : DirEntry) : Bool :=
  !file.IsDir && HasSuffix file.Name ".tmpl"

/-- The entry `file` of the directory `dir` is read without error and
`llmagent.New`, called with the configuration built from its name and
content, returns the agent `sa`. -/
def Loads (w : World M A E) (model : M) (dir : String) (file : DirEntry) (sa : A) : Prop :=
  ∃ content, w.ReadFile (w.Join dir file.Name) = .ok content ∧
    w.New (subAgentConfig model file.Name content) = .ok sa

/-- The paths given to `os.ReadFile` in a list of calls, in order. -/
def readPaths (calls : List (Event M A E)) : List String :=
  calls.filterMap fun ev =>
    match ev with
    | Event.ReadFile path => some path
    | _ => none

/-- The configurations given to `llmagent.New` in a list of calls, in order. -/
def newConfigs (calls : List (Event M A E)) : List (Config M A) :=
  calls.filterMap fun ev =>
    match ev with
    | Event.LlmagentNew cfg => some cfg
    | _ => none

/-- The launcher calls in a list of calls, in order. -/
def executions (calls : List (Event M A E)) : List (LauncherConfig A × List String) :=
  calls.filterMap fun ev =>
    match ev with
    | Event.Execute cfg args => some (cfg, args)
    | _ => none

/-- A call made by the body of the loop for the entry `file`. -/
def IsLoopCall (w : World M A E) (model : M) (dir : String) (file : DirEntry)
    (ev : Event M A E) : Prop :=
  ev = Event.ReadFile (w.Join dir file.Name) ∨
    ∃ content, w.ReadFile (w.Join dir file.Name) = .ok content ∧
      (ev = Event.Printf ("Loading sub-agent: " ++ TrimSuffix file.Name ".tmpl") ∨
        ev = Event.LlmagentNew (subAgentConfig model file.Name content))

end Vocabulary

/-! ## Lemmas on strings -/

theorem hasSuffix_iff (s suffix : String) :
    HasSuffix s suffix = true ↔ suffix.data <:+ s.data := by
  unfold HasSuffix
  simp only [Bool.and_eq_true, decide_eq_true_eq]
  constructor
  · rintro ⟨_, h⟩
    exact ⟨s.data.take (s.data.length - suffix.data.length), by
      conv_rhs => rw [← List.take_append_drop (s.data.length - suffix.data.length) s.data]
      rw [h]⟩
  · rintro ⟨t, h⟩
    have hl : s.data.length = t.length + suffix.data.length := by rw [← h]; simp
    refine ⟨by omega, ?_⟩
    rw [← h]
    have : (t ++ suffix.data).length - suffix.data.length = t.length := by simp
    rw [this, List.drop_left]

theorem hasSuffix_append (n suffix : String) : HasSuffix (n ++ suffix) suffix = true := by
  rw [hasSuffix_iff]
  exact ⟨n.data, by simp⟩

theorem trimSuffix_append (n suffix : String) : TrimSuffix (n ++ suffix) suffix = n := by
  unfold TrimSuffix
  rw [if_pos (hasSuffix_append n suffix)]
  have : (n ++ suffix).data.length - suffix.data.length = n.data.length := by simp
  rw [this]
  simp

theorem trimSuffix_append_of_hasSuffix (s suffix : String) (h : HasSuffix s suffix = true) :
    TrimSuffix s suffix ++ suffix = s := by
  obtain ⟨t, ht⟩ := (hasSuffix_iff s suffix).1 h
  have hs : s = String.mk t ++ suffix := by
    apply String.ext
    simp [ht]
  rw [hs, trimSuffix_append]

theorem trimSuffix_injOn (s t suffix : String) (hs : HasSuffix s suffix = true)
    (ht : HasSuffix t suffix = true) (h : TrimSuffix s suffix = TrimSuffix t suffix) : s = t := by
  rw [← trimSuffix_append_of_hasSuffix s suffix hs, ← trimSuffix_append_of_hasSuffix t suffix ht, h]

theorem contains_middle (a n b : String) : Contains (a ++ n ++ b) n := by
  unfold Contains
  exact ⟨a.data, b.data, by simp⟩

/-! ## Lemmas on the loop of `loadSubAgents` -/

section LoopLemmas

variable {M A E : Type}

theorem loadLoop_skip (w : World M A E) (model : M) (dir : String) (file : DirEntry)
    (files : List DirEntry) (agents : List A) (h : isTemplateFile file = false) :
    loadLoop w model dir (file :: files) agents = loadLoop w model dir files agents := by
  have hc : (file.IsDir || !HasSuffix file.Name ".tmpl") = true := by
    unfold isTemplateFile at h
    cases hd : file.IsDir <;> cases hs : HasSuffix file.Name ".tmpl" <;> simp_all
  simp only [loadLoop, hc, if_true]

theorem loadLoop_readError (w : World M A E) (model : M) (dir : String) (file : DirEntry)
    (files : List DirEntry) (agents : List A) (err : E) (h : isTemplateFile file = true)
    (hr : w.ReadFile (w.Join dir file.Name) = .error err) :
    loadLoop w model dir (file :: files) agents =
      (([], some err), [Event.ReadFile (w.Join dir file.Name)]) := by
  have hc : (file.IsDir || !HasSuffix file.Name ".tmpl") = false := by
    unfold isTemplateFile at h
    cases hd : file.IsDir <;> cases hs : HasSuffix file.Name ".tmpl" <;> simp_all
  simp only [loadLoop, hc, hr]
  rfl

theorem loadLoop_newError (w : World M A E) (model : M) (dir : String) (file : DirEntry)
    (files : List DirEntry) (agents : List A) (content : String) (err : E)
    (h : isTemplateFile file = true)
    (hr : w.ReadFile (w.Join dir file.Name) = .ok content)
    (hn : w.New (subAgentConfig model file.Name content) = .error err) :
    loadLoop w model dir (file :: files) agents =
      (([], some err),
        [Event.ReadFile (w.Join dir file.Name),
          Event.Printf ("Loading sub-agent: " ++ TrimSuffix file.Name ".tmpl"),
          Event.LlmagentNew (subAgentConfig model file.Name content)]) := by
  have hc : (file.IsDir || !HasSuffix file.Name ".tmpl") = false := by
    unfold isTemplateFile at h
    cases hd : file.IsDir <;> cases hs : HasSuffix file.Name ".tmpl" <;> simp_all
  simp only [loadLoop, hc, hr, hn]
  rfl

theorem loadLoop_load (w : World M A E) (model : M) (dir : String) (file : DirEntry)
    (files : List DirEntry) (agents : List A) (content : String) (sa : A)
    (h : isTemplateFile file = true)
    (hr : w.ReadFile (w.Join dir file.Name) = .ok content)
    (hn : w.New (subAgentConfig model file.Name content) = .ok sa) :
    loadLoop w model dir (file :: files) agents =
      ((loadLoop w model dir files (agents ++ [sa])).1,
        [Event.ReadFile (w.Join dir file.Name),
          Event.Printf ("Loading sub-agent: " ++ TrimSuffix file.Name ".tmpl"),
          Event.LlmagentNew (subAgentConfig model file.Name content)] ++
          (loadLoop w model dir files (agents ++ [sa])).2) := by
  have hc : (file.IsDir || !HasSuffix file.Name ".tmpl") = false := by
    unfold isTemplateFile at h
    cases hd : file.IsDir <;> cases hs : HasSuffix file.Name ".tmpl" <;> simp_all
  simp only [loadLoop, hc, hr, hn]
  rfl

/-- An error leaves the loop with the nil slice. -/
theorem loadLoop_error_nil (w : World M A E) (model : M) (dir : String)
    (files : List DirEntry) (agents : List A) (err : E)
    (h : (loadLoop w model dir files agents).1.2 = some err) :
    (loadLoop w model dir files agents).1.1 = [] := by
  induction files generalizing agents with
  | nil => simp [loadLoop] at h
  | cons file files ih =>
    cases ht : isTemplateFile file with
    | false =>
      rw [loadLoop_skip w model dir file files agents ht] at h ⊢
      exact ih agents h
    | true =>
      cases hr : w.ReadFile (w.Join dir file.Name) with
      | error e => rw [loadLoop_readError w model dir file files agents e ht hr]
      | ok content =>
        cases hn : w.New (subAgentConfig model file.Name content) with
        | error e => rw [loadLoop_newError w model dir file files agents content e ht hr hn]
        | ok sa =>
          rw [loadLoop_load w model dir file files agents content sa ht hr hn] at h ⊢
          exact ih (agents ++ [sa]) h

/-- The loop ends without error exactly when every template file of the
listing loads; its result is then the initial slice followed by the agents of
the template files, in the order of the listing. -/
theorem loadLoop_ok_iff (w : World M A E) (model : M) (dir : String)
    (files : List DirEntry) (agents out : List A) :
    (loadLoop w model dir files agents).1 = (out, none) ↔
      ∃ new, out = agents ++ new ∧
        List.Forall₂ (Loads w model dir) (files.filter isTemplateFile) new := by
  induction files generalizing agents with
  | nil =>
    simp only [loadLoop, List.filter_nil, List.forall₂_nil_left_iff]
    constructor
    · intro h
      exact ⟨[], by simpa using (congrArg Prod.fst h).symm, rfl⟩
    · rintro ⟨new, h, rfl⟩
      simp [h]
  | cons file files ih =>
    cases ht : isTemplateFile file with
    | false =>
      rw [loadLoop_skip w model dir file files agents ht, List.filter_cons_of_neg (by simp [ht])]
      exact ih agents
    | true =>
      rw [List.filter_cons_of_pos ht]
      cases hr : w.ReadFile (w.Join dir file.Name) with
      | error e =>
        rw [loadLoop_readError w model dir file files agents e ht hr]
        constructor
        · intro h
          simp at h
        · rintro ⟨new, -, h⟩
          cases h with
          | cons h1 _ =>
            obtain ⟨c, hc, -⟩ := h1
            rw [hr] at hc
            cases hc
      | ok content =>
        cases hn : w.New (subAgentConfig model file.Name content) with
        | error e =>
          rw [loadLoop_newError w model dir file files agents content e ht hr hn]
          constructor
          · intro h
            simp at h
          · rintro ⟨new, -, h⟩
            cases h with
            | cons h1 _ =>
              obtain ⟨c, hc, hc2⟩ := h1
              rw [hr] at hc
              cases hc
              rw [hn] at hc2
              cases hc2
        | ok sa =>
          rw [loadLoop_load w model dir file files agents content sa ht hr hn, ih (agents ++ [sa])]
          constructor
          · rintro ⟨new, h, hall⟩
            exact ⟨sa :: new, by simp [h], List.Forall₂.cons ⟨content, hr, hn⟩ hall⟩
          · rintro ⟨new, h, hall⟩
            cases hall with
            | cons h1 h2 =>
              obtain ⟨c, hc, hc2⟩ := h1
              rw [hr] at hc
              cases hc
              rw [hn] at hc2
              cases hc2
              exact ⟨_, by simp [h], h2⟩

/-- Every call of the loop is made by the body for some template file of the
listing. -/
theorem loadLoop_calls (w : World M A E) (model : M) (dir : String)
    (files : List DirEntry) (agents : List A) (ev : Event M A E)
    (h : ev ∈ (loadLoop w model dir files agents).2) :
    ∃ file ∈ files, isTemplateFile file = true ∧ IsLoopCall w model dir file ev := by
  induction files generalizing agents with
  | nil => simp [loadLoop] at h
  | cons file files ih =>
    cases ht : isTemplateFile file with
    | false =>
      rw [loadLoop_skip w model dir file files agents ht] at h
      obtain ⟨f, hf, h1, h2⟩ := ih agents h
      exact ⟨f, List.mem_cons_of_mem _ hf, h1, h2⟩
    | true =>
      cases hr : w.ReadFile (w.Join dir file.Name) with
      | error e =>
        rw [loadLoop_readError w model dir file files agents e ht hr] at h
        simp only [List.mem_singleton] at h
        exact ⟨file, List.mem_cons_self _ _, ht, Or.inl h⟩
      | ok content =>
        have hbody : ∀ ev0 : Event M A E,
            ev0 ∈ [Event.ReadFile (w.Join dir file.Name),
              Event.Printf ("Loading sub-agent: " ++ TrimSuffix file.Name ".tmpl"),
              Event.LlmagentNew (subAgentConfig model file.Name content)] →
            IsLoopCall w model dir file ev0 := by
          intro ev0 h0
          simp only [List.mem_cons, List.mem_singleton, List.not_mem_nil, or_false] at h0
          rcases h0 with h0 | h0 | h0
          · exact Or.inl h0
          · exact Or.inr ⟨content, hr, Or.inl h0⟩
          · exact Or.inr ⟨content, hr, Or.inr h0⟩
        cases hn : w.New (subAgentConfig model file.Name content) with
        | error e =>
          rw [loadLoop_newError w model dir file files agents content e ht hr hn] at h
          exact ⟨file, List.mem_cons_self _ _, ht, hbody ev h⟩
        | ok sa =>
          rw [loadLoop_load w model dir file files agents content sa ht hr hn] at h
          rcases List.mem_append.1 h with h | h
          · exact ⟨file, List.mem_cons_self _ _, ht, hbody ev h⟩
          · obtain ⟨f, hf, h1, h2⟩ := ih (agents ++ [sa]) h
            exact ⟨f, List.mem_cons_of_mem _ hf, h1, h2⟩

/-- When the template files of `pre` all load, the loop on `pre ++ rest`
continues on `rest` with their agents appended, after having read exactly the
template files of `pre` and built exactly their configurations. -/
theorem loadLoop_append (w : World M A E) (model : M) (dir : String)
    (pre rest : List DirEntry) (agents new : List A)
    (h : List.Forall₂ (Loads w model dir) (pre.filter isTemplateFile) new) :
    ∃ calls : List (Event M A E),
      loadLoop w model dir (pre ++ rest) agents =
        ((loadLoop w model dir rest (agents ++ new)).1,
          calls ++ (loadLoop w model dir rest (agents ++ new)).2) ∧
      readPaths calls = (pre.filter isTemplateFile).map (fun file => w.Join dir file.Name) ∧
      List.Forall₂ (fun file cfg => ∃ content,
          w.ReadFile (w.Join dir file.Name) = .ok content ∧
          cfg = subAgentConfig model file.Name content)
        (pre.filter isTemplateFile) (newConfigs calls) := by
  induction pre generalizing agents new with
  | nil =>
    simp only [List.filter_nil, List.forall₂_nil_left_iff] at h
    subst h
    exact ⟨[], by simp, rfl, List.Forall₂.nil⟩
  | cons file pre ih =>
    cases ht : isTemplateFile file with
    | false =>
      rw [List.filter_cons_of_neg (by simp [ht])] at h ⊢
      obtain ⟨calls, h1, h2, h3⟩ := ih agents new h
      refine ⟨calls, ?_, h2, h3⟩
      rw [List.cons_append, loadLoop_skip w model dir file _ agents ht, h1]
    | true =>
      rw [List.filter_cons_of_pos ht] at h ⊢
      cases h with
      | cons hl hrest =>
        rename_i sa new0
        obtain ⟨content, hr, hn⟩ := hl
        obtain ⟨calls, h1, h2, h3⟩ := ih (agents ++ [sa]) new0 hrest
        refine ⟨[Event.ReadFile (w.Join dir file.Name),
            Event.Printf ("Loading sub-agent: " ++ TrimSuffix file.Name ".tmpl"),
            Event.LlmagentNew (subAgentConfig model file.Name content)] ++ calls, ?_, ?_, ?_⟩
        · rw [List.cons_append, loadLoop_load w model dir file _ agents content sa ht hr hn, h1]
          simp
        · simp only [readPaths] at h2 ⊢
          simp [h2]
        · simp only [newConfigs] at h3 ⊢
          simp only [List.cons_append, List.nil_append, List.filterMap_cons, List.map_cons]
          exact List.Forall₂.cons ⟨content, hr, rfl⟩ h3

end LoopLemmas

/-! ## Lemmas on lists of calls and on related lists -/

section ListLemmas

variable {M A E : Type}

theorem readPaths_append (xs ys : List (Event M A E)) :
    readPaths (xs ++ ys) = readPaths xs ++ readPaths ys := by
  simp [readPaths]

theorem newConfigs_append (xs ys : List (Event M A E)) :
    newConfigs (xs ++ ys) = newConfigs xs ++ newConfigs ys := by
  simp [newConfigs]

theorem executions_append (xs ys : List (Event M A E)) :
    executions (xs ++ ys) = executions xs ++ executions ys := by
  simp [executions]

theorem mem_newConfigs (calls : List (Event M A E)) (cfg : Config M A) :
    cfg ∈ newConfigs calls ↔ Event.LlmagentNew cfg ∈ calls := by
  induction calls with
  | nil => simp [newConfigs]
  | cons ev calls ih =>
    simp only [newConfigs] at ih
    cases ev <;> simp [newConfigs, ih]

theorem mem_executions (calls : List (Event M A E)) (x : LauncherConfig A × List String) :
    x ∈ executions calls ↔ Event.Execute x.1 x.2 ∈ calls := by
  induction calls with
  | nil => simp [executions]
  | cons ev calls ih =>
    have hcons : executions (ev :: calls) = executions [ev] ++ executions calls :=
      executions_append [ev] calls
    rw [hcons, List.mem_append, ih, List.mem_cons]
    cases ev <;> simp [executions, Prod.ext_iff, eq_comm]

theorem forall₂_of_forall_exists {α β : Type} (R : α → β → Prop) (l : List α)
    (h : ∀ a ∈ l, ∃ b, R a b) : ∃ bs, List.Forall₂ R l bs := by
  induction l with
  | nil => exact ⟨[], List.Forall₂.nil⟩
  | cons a l ih =>
    obtain ⟨b, hb⟩ := h a (List.mem_cons_self _ _)
    obtain ⟨bs, hbs⟩ := ih fun x hx => h x (List.mem_cons_of_mem _ hx)
    exact ⟨b :: bs, List.Forall₂.cons hb hbs⟩

theorem forall₂_exists_of_mem {α β : Type} (R : α → β → Prop) (l : List α) (bs : List β)
    (h : List.Forall₂ R l bs) (a : α) (ha : a ∈ l) : ∃ b ∈ bs, R a b := by
  induction h with
  | nil => simp at ha
  | cons h1 _ ih =>
    rcases List.mem_cons.1 ha with rfl | ha
    · exact ⟨_, List.mem_cons_self _ _, h1⟩
    · obtain ⟨b, hb, hr⟩ := ih ha
      exact ⟨b, List.mem_cons_of_mem _ hb, hr⟩

theorem forall₂_join {α β γ : Type} (R : α → β → Prop) (S : α → γ → Prop)
    (l : List α) (bs : List β) (cs : List γ)
    (h1 : List.Forall₂ R l bs) (h2 : List.Forall₂ S l cs) :
    List.Forall₂ (fun c b => ∃ a, S a c ∧ R a b) cs bs := by
  induction h1 generalizing cs with
  | nil =>
    cases h2
    exact List.Forall₂.nil
  | cons hr _ ih =>
    cases h2 with
    | cons hs h2 => exact List.Forall₂.cons ⟨_, hs, hr⟩ (ih _ h2)

theorem forall₂_map_eq {α β γ : Type} (R : α → β → Prop) (f : α → γ) (g : β → γ)
    (l : List α) (bs : List β) (h : List.Forall₂ R l bs)
    (hfg : ∀ a b, R a b → f a = g b) : l.map f = bs.map g := by
  induction h with
  | nil => rfl
  | cons h1 _ ih => simp [hfg _ _ h1, ih]

theorem forall₂_imp_of_mem {α β : Type} (R S : α → β → Prop) (l : List α) (bs : List β)
    (h : List.Forall₂ R l bs) (himp : ∀ a ∈ l, ∀ b, R a b → S a b) : List.Forall₂ S l bs := by
  induction h with
  | nil => exact List.Forall₂.nil
  | cons h1 _ ih =>
    exact List.Forall₂.cons (himp _ (List.mem_cons_self _ _) _ h1)
      (ih fun a ha b hab => himp a (List.mem_cons_of_mem _ ha) b hab)

end ListLemmas

/-! ## Lemmas on `loadSubAgents` -/

section LoaderLemmas

variable {M A E : Type}

theorem loadSubAgents_of_readDir_error (w : World M A E) (model : M) (dir : String) (err : E)
    (h : w.ReadDir dir = .error err) :
    loadSubAgents w model dir = (([], some err), [Event.ReadDir dir]) := by
  simp only [loadSubAgents, h]

theorem loadSubAgents_of_readDir_ok (w : World M A E) (model : M) (dir : String)
    (files : List DirEntry) (h : w.ReadDir dir = .ok files) :
    loadSubAgents w model dir =
      ((loadLoop w model dir files []).1, Event.ReadDir dir :: (loadLoop w model dir files []).2) := by
  simp only [loadSubAgents, h]

/-- An error is returned together with the nil slice. -/
theorem loadSubAgents_error_nil (w : World M A E) (model : M) (dir : String) (err : E)
    (h : (loadSubAgents w model dir).1.2 = some err) :
    (loadSubAgents w model dir).1.1 = [] := by
  cases hd : w.ReadDir dir with
  | error e => rw [loadSubAgents_of_readDir_error w model dir e hd]
  | ok files =>
    rw [loadSubAgents_of_readDir_ok w model dir files hd] at h ⊢
    exact loadLoop_error_nil w model dir files [] err h

/-- The load ends without error exactly when the directory is listed and
every template file of the listing loads. -/
theorem loadSubAgents_ok_iff (w : World M A E) (model : M) (dir : String) (agents : List A) :
    (loadSubAgents w model dir).1 = (agents, none) ↔
      ∃ files, w.ReadDir dir = .ok files ∧
        List.Forall₂ (Loads w model dir) (files.filter isTemplateFile) agents := by
  cases hd : w.ReadDir dir with
  | error e =>
    rw [loadSubAgents_of_readDir_error w model dir e hd]
    simp
  | ok files =>
    rw [loadSubAgents_of_readDir_ok w model dir files hd, loadLoop_ok_iff]
    constructor
    · rintro ⟨new, h, hall⟩
      exact ⟨files, rfl, by simpa [h] using hall⟩
    · rintro ⟨files0, h0, hall⟩
      cases h0
      exact ⟨agents, by simp, hall⟩

/-- The calls of a load that ends without error: the listing, then for each
template file its read, its log line and its construction. -/
theorem loadSubAgents_ok_calls (w : World M A E) (model : M) (dir : String)
    (files : List DirEntry) (agents : List A) (hd : w.ReadDir dir = .ok files)
    (h : List.Forall₂ (Loads w model dir) (files.filter isTemplateFile) agents) :
    readPaths (loadSubAgents w model dir).2 =
        (files.filter isTemplateFile).map (fun file => w.Join dir file.Name) ∧
      List.Forall₂ (fun file cfg => ∃ content,
          w.ReadFile (w.Join dir file.Name) = .ok content ∧
          cfg = subAgentConfig model file.Name content)
        (files.filter isTemplateFile) (newConfigs (loadSubAgents w model dir).2) := by
  obtain ⟨calls, h1, h2, h3⟩ := loadLoop_append w model dir files [] [] agents h
  rw [loadSubAgents_of_readDir_ok w model dir files hd]
  rw [List.append_nil] at h1
  rw [h1]
  simp only [loadLoop, List.append_nil]
  constructor
  · simpa [readPaths] using h2
  · simpa [newConfigs] using h3

/-- Every call of a load is the listing or a call of the loop body for a
template file of the listing. -/
theorem loadSubAgents_calls (w : World M A E) (model : M) (dir : String) (ev : Event M A E)
    (h : ev ∈ (loadSubAgents w model dir).2) :
    ev = Event.ReadDir dir ∨
      ∃ files file, w.ReadDir dir = .ok files ∧ file ∈ files ∧ isTemplateFile file = true ∧
        IsLoopCall w model dir file ev := by
  cases hd : w.ReadDir dir with
  | error e =>
    rw [loadSubAgents_of_readDir_error w model dir e hd] at h
    exact Or.inl (by simpa using h)
  | ok files =>
    rw [loadSubAgents_of_readDir_ok w model dir files hd] at h
    rcases List.mem_cons.1 h with h | h
    · exact Or.inl h
    · obtain ⟨file, hf, h1, h2⟩ := loadLoop_calls w model dir files [] ev h
      exact Or.inr ⟨files, file, rfl, hf, h1, h2⟩

/-- A load that ends without error called `llmagent.New` once per template
file of the listing, in order, with the configuration built from that file,
and returned the agents these calls produced, in the same order. -/
theorem loadSubAgents_ok_configs (w : World M A E) (model : M) (dir : String) (agents : List A)
    (h : (loadSubAgents w model dir).1 = (agents, none)) :
    ∃ files, w.ReadDir dir = .ok files ∧
      List.Forall₂ (fun file cfg => ∃ content,
          w.ReadFile (w.Join dir file.Name) = .ok content ∧
          cfg = subAgentConfig model file.Name content)
        (files.filter isTemplateFile) (newConfigs (loadSubAgents w model dir).2) ∧
      List.Forall₂ (fun cfg sa => w.New cfg = .ok sa)
        (newConfigs (loadSubAgents w model dir).2) agents := by
  obtain ⟨files, hd, hall⟩ := (loadSubAgents_ok_iff w model dir agents).1 h
  have hcfg := (loadSubAgents_ok_calls w model dir files agents hd hall).2
  refine ⟨files, hd, hcfg, ?_⟩
  refine List.Forall₂.imp ?_ (forall₂_join _ _ _ _ _ hall hcfg)
  rintro cfg sa ⟨file, ⟨content, hr, rfl⟩, content0, hr0, hn⟩
  rw [hr] at hr0
  cases hr0
  exact hn

theorem executions_loadSubAgents (w : World M A E) (model : M) (dir : String) :
    executions (loadSubAgents w model dir).2 = [] := by
  apply List.eq_nil_iff_forall_not_mem.2
  intro x hx
  rw [mem_executions] at hx
  rcases loadSubAgents_calls w model dir _ hx with h | ⟨_, _, _, _, _, h⟩
  · cases h
  · rcases h with h | ⟨_, _, h | h⟩ <;> cases h

end LoaderLemmas

/-! ## Lemmas on `main` -/

section MainLemmas

variable {M A E : Type}

/-- The two `llmagent.Config` literals of the program never coincide: their
descriptions start with different letters. -/
theorem rootConfig_ne_subAgentConfig (model model0 : M) (rootInstruction : String)
    (tools : List (Tool A)) (fileName content : String) :
    (rootConfig model rootInstruction tools : Config M A) ≠
      subAgentConfig model0 fileName content := by
  intro h
  have hd := congrArg (fun cfg : Config M A => cfg.Description.data.head?) h
  simp [rootConfig, subAgentConfig] at hd

theorem agentTools_eq_map (subAgents : List A) :
    agentTools subAgents = subAgents.map fun sa => agenttoolNew sa none := by
  have key : ∀ (l : List A) (acc : List (Tool A)),
      l.foldl (fun tools sa => tools ++ [agenttoolNew sa none]) acc =
        acc ++ l.map fun sa => agenttoolNew sa none := by
    intro l
    induction l with
    | nil => intro acc; simp
    | cons sa l ih => intro acc; simp [ih]
  simpa [agentTools] using key subAgents []

theorem clientConfig_of_pair (w : World M A E)
    (h : w.Getenv "GOOGLE_CLOUD_PROJECT" ≠ "" ∧ w.Getenv "GOOGLE_CLOUD_LOCATION" ≠ "") :
    clientConfig w =
      { Project := w.Getenv "GOOGLE_CLOUD_PROJECT", Location := w.Getenv "GOOGLE_CLOUD_LOCATION",
        Backend := Backend.BackendVertexAI, APIKey := "" } := by
  unfold clientConfig
  exact if_pos h

theorem clientConfig_of_not_pair (w : World M A E)
    (h : ¬ (w.Getenv "GOOGLE_CLOUD_PROJECT" ≠ "" ∧ w.Getenv "GOOGLE_CLOUD_LOCATION" ≠ "")) :
    clientConfig w =
      { APIKey := if w.Getenv "GEMINI_API_KEY" = "" then w.Getenv "GOOGLE_API_KEY"
          else w.Getenv "GEMINI_API_KEY",
        Backend := Backend.BackendUnspecified, Project := "", Location := "" } := by
  unfold clientConfig
  exact if_neg h

/-- The first call of `main` is `gemini.NewModel` with the selected
configuration. -/
theorem main_head (w : World M A E) :
    (main w).2.head? = some (Event.NewModel modelName (clientConfig w)) := by
  unfold main
  simp only []
  split
  · rfl
  · split
    · rfl
    · split
      · rfl
      · split
        · rfl
        · split <;> rfl

theorem main_of_newModel_error (w : World M A E) (err : E)
    (hm : w.NewModel modelName (clientConfig w) = .error err) :
    main w = (Outcome.Fatal "Failed to create model: %v" err,
      [Event.NewModel modelName (clientConfig w),
        Event.Fatalf "Failed to create model: %v" err]) := by
  simp only [main, hm]

theorem main_of_load_error (w : World M A E) (model : M) (err : E)
    (hm : w.NewModel modelName (clientConfig w) = .ok model)
    (hl : (loadSubAgents w model subAgentsDir).1.2 = some err) :
    main w = (Outcome.Fatal "Failed to load sub-agents: %v" err,
      Event.NewModel modelName (clientConfig w) :: (loadSubAgents w model subAgentsDir).2 ++
        [Event.Fatalf "Failed to load sub-agents: %v" err]) := by
  simp only [main, hm, hl]

theorem main_of_read_error (w : World M A E) (model : M) (err : E)
    (hm : w.NewModel modelName (clientConfig w) = .ok model)
    (hl : (loadSubAgents w model subAgentsDir).1.2 = none)
    (hr : w.ReadFile rootTemplatePath = .error err) :
    main w = (Outcome.Fatal "Failed to read root template: %v" err,
      Event.NewModel modelName (clientConfig w) :: (loadSubAgents w model subAgentsDir).2 ++
        [Event.ReadFile rootTemplatePath] ++
        [Event.Fatalf "Failed to read root template: %v" err]) := by
  simp only [main, hm, hl, hr]

theorem main_of_new_error (w : World M A E) (model : M) (rootInstruction : String) (err : E)
    (hm : w.NewModel modelName (clientConfig w) = .ok model)
    (hl : (loadSubAgents w model subAgentsDir).1.2 = none)
    (hr : w.ReadFile rootTemplatePath = .ok rootInstruction)
    (hn : w.New (rootConfig model rootInstruction
      (agentTools (loadSubAgents w model subAgentsDir).1.1)) = .error err) :
    main w = (Outcome.Fatal "Failed to create root agent: %v" err,
      Event.NewModel modelName (clientConfig w) :: (loadSubAgents w model subAgentsDir).2 ++
        [Event.ReadFile rootTemplatePath] ++
        [Event.LlmagentNew (rootConfig model rootInstruction
          (agentTools (loadSubAgents w model subAgentsDir).1.1))] ++
        [Event.Fatalf "Failed to create root agent: %v" err]) := by
  simp only [main, hm, hl, hr, hn]

theorem main_of_new_ok (w : World M A E) (model : M) (rootInstruction : String) (rootAgent : A)
    (hm : w.NewModel modelName (clientConfig w) = .ok model)
    (hl : (loadSubAgents w model subAgentsDir).1.2 = none)
    (hr : w.ReadFile rootTemplatePath = .ok rootInstruction)
    (hn : w.New (rootConfig model rootInstruction
      (agentTools (loadSubAgents w model subAgentsDir).1.1)) = .ok rootAgent) :
    ∃ out tail, main w = (out,
      Event.NewModel modelName (clientConfig w) :: (loadSubAgents w model subAgentsDir).2 ++
        [Event.ReadFile rootTemplatePath] ++
        [Event.LlmagentNew (rootConfig model rootInstruction
          (agentTools (loadSubAgents w model subAgentsDir).1.1))] ++
        [Event.Execute (LauncherConfig.mk rootAgent) (w.Args.drop 1)] ++ tail) ∧
      executions tail = [] ∧ newConfigs tail = [] ∧
      (out = Outcome.Returned ∨ ∃ err, out = Outcome.Fatal "Agent execution failed: %v" err) := by
  cases he : w.Execute (LauncherConfig.mk rootAgent) (w.Args.drop 1) with
  | none =>
    refine ⟨Outcome.Returned, [], ?_, rfl, rfl, Or.inl rfl⟩
    simp only [main, hm, hl, hr, hn, he, List.append_nil]
  | some err =>
    refine ⟨Outcome.Fatal "Agent execution failed: %v" err,
      [Event.Fatalf "Agent execution failed: %v" err], ?_, rfl, rfl, Or.inr ⟨err, rfl⟩⟩
    simp only [main, hm, hl, hr, hn, he]

theorem rootConfig_not_mem_load (w : World M A E) (model model0 : M) (dir rootInstruction : String)
    (tools : List (Tool A)) :
    rootConfig model0 rootInstruction tools ∉ newConfigs (loadSubAgents w model dir).2 := by
  intro h
  rw [mem_newConfigs] at h
  rcases loadSubAgents_calls w model dir _ h with h0 | ⟨_, file, _, _, _, hcall⟩
  · cases h0
  · rcases hcall with h0 | ⟨content, -, h0 | h0⟩
    · cases h0
    · cases h0
    · exact rootConfig_ne_subAgentConfig model0 model rootInstruction tools file.Name content
        (Event.LlmagentNew.inj h0)

theorem executions_main_of_newModel_error (w : World M A E) (err : E)
    (hm : w.NewModel modelName (clientConfig w) = .error err) :
    executions (main w).2 = [] ∧ newConfigs (main w).2 = [] := by
  rw [main_of_newModel_error w err hm]
  exact ⟨rfl, rfl⟩

theorem executions_main_of_load_error (w : World M A E) (model : M) (err : E)
    (hm : w.NewModel modelName (clientConfig w) = .ok model)
    (hl : (loadSubAgents w model subAgentsDir).1.2 = some err) :
    executions (main w).2 = [] ∧
      newConfigs (main w).2 = newConfigs (loadSubAgents w model subAgentsDir).2 := by
  rw [main_of_load_error w model err hm hl]
  constructor
  · have h := executions_loadSubAgents w model subAgentsDir
    simp only [executions] at h ⊢
    simp [h]
  · simp [newConfigs]

theorem executions_main_of_read_error (w : World M A E) (model : M) (err : E)
    (hm : w.NewModel modelName (clientConfig w) = .ok model)
    (hl : (loadSubAgents w model subAgentsDir).1.2 = none)
    (hr : w.ReadFile rootTemplatePath = .error err) :
    executions (main w).2 = [] ∧
      newConfigs (main w).2 = newConfigs (loadSubAgents w model subAgentsDir).2 := by
  rw [main_of_read_error w model err hm hl hr]
  constructor
  · have h := executions_loadSubAgents w model subAgentsDir
    simp only [executions] at h ⊢
    simp [h]
  · simp [newConfigs]

theorem executions_main_of_new_error (w : World M A E) (model : M) (rootInstruction : String)
    (err : E)
    (hm : w.NewModel modelName (clientConfig w) = .ok model)
    (hl : (loadSubAgents w model subAgentsDir).1.2 = none)
    (hr : w.ReadFile rootTemplatePath = .ok rootInstruction)
    (hn : w.New (rootConfig model rootInstruction
      (agentTools (loadSubAgents w model subAgentsDir).1.1)) = .error err) :
    executions (main w).2 = [] ∧
      newConfigs (main w).2 = newConfigs (loadSubAgents w model subAgentsDir).2 ++
        [rootConfig model rootInstruction
          (agentTools (loadSubAgents w model subAgentsDir).1.1)] := by
  rw [main_of_new_error w model rootInstruction err hm hl hr hn]
  constructor
  · have h := executions_loadSubAgents w model subAgentsDir
    simp only [executions] at h ⊢
    simp [h]
  · simp [newConfigs]

theorem executions_main_of_new_ok (w : World M A E) (model : M) (rootInstruction : String)
    (rootAgent : A)
    (hm : w.NewModel modelName (clientConfig w) = .ok model)
    (hl : (loadSubAgents w model subAgentsDir).1.2 = none)
    (hr : w.ReadFile rootTemplatePath = .ok rootInstruction)
    (hn : w.New (rootConfig model rootInstruction
      (agentTools (loadSubAgents w model subAgentsDir).1.1)) = .ok rootAgent) :
    executions (main w).2 = [(LauncherConfig.mk rootAgent, w.Args.drop 1)] ∧
      newConfigs (main w).2 = newConfigs (loadSubAgents w model subAgentsDir).2 ++
        [rootConfig model rootInstruction
          (agentTools (loadSubAgents w model subAgentsDir).1.1)] := by
  obtain ⟨out, tail, hmain, h1, h2, -⟩ := main_of_new_ok w model rootInstruction rootAgent hm hl hr hn
  rw [hmain]
  constructor
  · have h := executions_loadSubAgents w model subAgentsDir
    simp only [executions] at h h1 ⊢
    simp [h, h1]
  · simp only [newConfigs] at h2 ⊢
    simp [h2]

/-- The calls of `llmagent.New` made by `main` once the root template has
been read: those of the loader, then the root configuration. -/
theorem newConfigs_main_of_read_ok (w : World M A E) (model : M) (rootInstruction : String)
    (hm : w.NewModel modelName (clientConfig w) = .ok model)
    (hl : (loadSubAgents w model subAgentsDir).1.2 = none)
    (hr : w.ReadFile rootTemplatePath = .ok rootInstruction) :
    newConfigs (main w).2 = newConfigs (loadSubAgents w model subAgentsDir).2 ++
      [rootConfig model rootInstruction
        (agentTools (loadSubAgents w model subAgentsDir).1.1)] := by
  cases hn : w.New (rootConfig model rootInstruction
      (agentTools (loadSubAgents w model subAgentsDir).1.1)) with
  | error err => exact (executions_main_of_new_error w model rootInstruction err hm hl hr hn).2
  | ok rootAgent => exact (executions_main_of_new_ok w model rootInstruction rootAgent hm hl hr hn).2

end MainLemmas

/-! ## The claims -/

section Claims

variable {M A E : Type}

/-- C1: whatever the four environment variables hold, the configuration built
by `main` is the Vertex AI one, carrying the project and the location, if and
only if both are non-empty, and is otherwise the key-based one, whose key is
`GEMINI_API_KEY` when that is non-empty and `GOOGLE_API_KEY` otherwise; that
configuration is what `main` gives to `gemini.NewModel`. -/
theorem C1_model_selector (w : World M A E) :
    (clientConfig w =
        { Project := w.Getenv "GOOGLE_CLOUD_PROJECT", Location := w.Getenv "GOOGLE_CLOUD_LOCATION",
          Backend := Backend.BackendVertexAI, APIKey := "" } ↔
      w.Getenv "GOOGLE_CLOUD_PROJECT" ≠ "" ∧ w.Getenv "GOOGLE_CLOUD_LOCATION" ≠ "") ∧
    (clientConfig w =
        { APIKey := if w.Getenv "GEMINI_API_KEY" ≠ "" then w.Getenv "GEMINI_API_KEY"
            else w.Getenv "GOOGLE_API_KEY",
          Backend := Backend.BackendUnspecified, Project := "", Location := "" } ↔
      ¬ (w.Getenv "GOOGLE_CLOUD_PROJECT" ≠ "" ∧ w.Getenv "GOOGLE_CLOUD_LOCATION" ≠ "")) ∧
    ((clientConfig w).Backend = Backend.BackendVertexAI ↔
      w.Getenv "GOOGLE_CLOUD_PROJECT" ≠ "" ∧ w.Getenv "GOOGLE_CLOUD_LOCATION" ≠ "") ∧
    (main w).2.head? = some (Event.NewModel modelName (clientConfig w)) := by
  have hhead := main_head w
  by_cases h : w.Getenv "GOOGLE_CLOUD_PROJECT" ≠ "" ∧ w.Getenv "GOOGLE_CLOUD_LOCATION" ≠ ""
  · have hc := clientConfig_of_pair w h
    refine ⟨?_, ?_, ?_, hhead⟩
    · exact ⟨fun _ => h, fun _ => hc⟩
    · refine ⟨fun hk => ?_, fun hn => absurd h hn⟩
      rw [hc] at hk
      cases (congrArg ClientConfig.Backend hk)
    · exact ⟨fun _ => h, fun _ => by rw [hc]⟩
  · have hc := clientConfig_of_not_pair w h
    refine ⟨?_, ?_, ?_, hhead⟩
    · refine ⟨fun hk => ?_, fun hp => absurd hp h⟩
      rw [hc] at hk
      cases (congrArg ClientConfig.Backend hk)
    · refine ⟨fun _ => h, fun _ => ?_⟩
      rw [hc]
      by_cases hk : w.Getenv "GEMINI_API_KEY" = "" <;> simp [hk]
    · refine ⟨fun hk => ?_, fun hp => absurd hp h⟩
      rw [hc] at hk
      cases hk

/-- C1 evaluated: with the cloud pair and both keys set the Vertex AI
configuration is built; with the location missing the primary key wins. -/
theorem C1_model_selector_witness :
    clientConfig emptyWorld =
        { Project := "my-project", Location := "us-central1",
          Backend := Backend.BackendVertexAI, APIKey := "" } ∧
      clientConfig keyWorld =
        { APIKey := "k1", Backend := Backend.BackendUnspecified, Project := "", Location := "" } :=
  ⟨(C1_model_selector emptyWorld).1.2 (by decide),
    (C1_model_selector keyWorld).2.1.2 (by decide)⟩

/-- C10: when exactly one of `GOOGLE_CLOUD_PROJECT` and `GOOGLE_CLOUD_LOCATION`
is non-empty, the configuration built by `main` has an empty project, an empty
location and no Vertex AI backend, and carries only the API key; when neither
key variable is set that key is empty, and `main` still constructs the model
client with this configuration as its first call. -/
theorem C10_half_pair_dropped (w : World M A E)
    (h : (w.Getenv "GOOGLE_CLOUD_PROJECT" ≠ "" ∧ w.Getenv "GOOGLE_CLOUD_LOCATION" = "") ∨
      (w.Getenv "GOOGLE_CLOUD_PROJECT" = "" ∧ w.Getenv "GOOGLE_CLOUD_LOCATION" ≠ "")) :
    (clientConfig w).Project = "" ∧ (clientConfig w).Location = "" ∧
      (clientConfig w).Backend = Backend.BackendUnspecified ∧
      (clientConfig w).Backend ≠ Backend.BackendVertexAI ∧
      (clientConfig w).APIKey =
        (if w.Getenv "GEMINI_API_KEY" = "" then w.Getenv "GOOGLE_API_KEY"
          else w.Getenv "GEMINI_API_KEY") ∧
      (w.Getenv "GEMINI_API_KEY" = "" → w.Getenv "GOOGLE_API_KEY" = "" →
        (clientConfig w).APIKey = "" ∧
        (main w).2.head? = some (Event.NewModel modelName
          { APIKey := "", Backend := Backend.BackendUnspecified, Project := "",
            Location := "" })) := by
  have hn : ¬ (w.Getenv "GOOGLE_CLOUD_PROJECT" ≠ "" ∧ w.Getenv "GOOGLE_CLOUD_LOCATION" ≠ "") := by
    rcases h with ⟨_, h2⟩ | ⟨h1, _⟩
    · exact fun hc => hc.2 h2
    · exact fun hc => hc.1 h1
  have hc := clientConfig_of_not_pair w hn
  refine ⟨by rw [hc], by rw [hc], by rw [hc], by rw [hc]; simp, by rw [hc], ?_⟩
  intro hg hk
  have hhead := main_head w
  rw [hc] at hhead ⊢
  simp only [hg, hk, if_true] at hhead ⊢
  exact ⟨trivial, hhead⟩

/-- C10 evaluated: with only the project set and no key, the first call of
`main` constructs the model client from the all-empty configuration. -/
theorem C10_half_pair_dropped_witness :
    clientConfig brokenWorld =
        { APIKey := "", Backend := Backend.BackendUnspecified, Project := "", Location := "" } ∧
      (main brokenWorld).2.head? = some (Event.NewModel modelName
        { APIKey := "", Backend := Backend.BackendUnspecified, Project := "", Location := "" }) :=
  ⟨by decide,
    ((C10_half_pair_dropped brokenWorld (Or.inl (by decide))).2.2.2.2.2
      (by decide) (by decide)).2⟩

/-- C4: `loadSubAgents` is all-or-nothing.  An error is always returned
together with the nil slice; a failing listing, the first failing read of a
template file and the first failing construction each give that same error
and nil, whatever was loaded before; a non-empty slice comes with no error. -/
theorem C4_all_or_nothing (w : World M A E) (model : M) (dir : String) :
    (∀ err, (loadSubAgents w model dir).1.2 = some err →
      (loadSubAgents w model dir).1.1 = []) ∧
    (∀ err, w.ReadDir dir = .error err → (loadSubAgents w model dir).1 = ([], some err)) ∧
    (∀ pre file post loaded err, w.ReadDir dir = .ok (pre ++ file :: post) →
      List.Forall₂ (Loads w model dir) (pre.filter isTemplateFile) loaded →
      isTemplateFile file = true →
      w.ReadFile (w.Join dir file.Name) = .error err →
      (loadSubAgents w model dir).1 = ([], some err)) ∧
    (∀ pre file post loaded content err, w.ReadDir dir = .ok (pre ++ file :: post) →
      List.Forall₂ (Loads w model dir) (pre.filter isTemplateFile) loaded →
      isTemplateFile file = true →
      w.ReadFile (w.Join dir file.Name) = .ok content →
      w.New (subAgentConfig model file.Name content) = .error err →
      (loadSubAgents w model dir).1 = ([], some err)) ∧
    ((loadSubAgents w model dir).1.1 ≠ [] → (loadSubAgents w model dir).1.2 = none) := by
  refine ⟨fun err h => loadSubAgents_error_nil w model dir err h, ?_, ?_, ?_, ?_⟩
  · intro err h
    rw [loadSubAgents_of_readDir_error w model dir err h]
  · intro pre file post loaded err hd hl ht hr
    obtain ⟨calls, h1, -, -⟩ := loadLoop_append w model dir pre (file :: post) [] loaded hl
    rw [loadSubAgents_of_readDir_ok w model dir _ hd, h1,
      loadLoop_readError w model dir file post _ err ht hr]
  · intro pre file post loaded content err hd hl ht hr hn
    obtain ⟨calls, h1, -, -⟩ := loadLoop_append w model dir pre (file :: post) [] loaded hl
    rw [loadSubAgents_of_readDir_ok w model dir _ hd, h1,
      loadLoop_newError w model dir file post _ content err ht hr hn]
  · intro hne
    cases he : (loadSubAgents w model dir).1.2 with
    | none => rfl
    | some err => exact absurd (loadSubAgents_error_nil w model dir err he) hne

/-- C4 evaluated: `service.tmpl` loads, then `deployment.tmpl` cannot be
read; the result is that error and no agent. -/
theorem C4_all_or_nothing_witness :
    (loadSubAgents brokenWorld () subAgentsDir).1 =
      ([], some "open templates/sub-agents/deployment.tmpl") :=
  (C4_all_or_nothing brokenWorld () subAgentsDir).2.2.1
    [⟨"service.tmpl", false⟩, ⟨"README.md", false⟩, ⟨"old.tmpl", true⟩]
    ⟨"deployment.tmpl", false⟩ []
    [⟨"service", "Specialist agent for generating service Kubernetes manifests.", "S", 0⟩]
    "open templates/sub-agents/deployment.tmpl" rfl
    (List.Forall₂.cons ⟨"S", rfl, rfl⟩ List.Forall₂.nil) (by decide) rfl

/-- C2: when the listing succeeds and every template file (a regular file
whose name ends in ".tmpl") is read and constructed without error,
`loadSubAgents` returns without error exactly as many agents as there are
template files, one per template file in order; the files it reads are exactly
the template files, so no other regular file and no subdirectory is read, and
the result does not depend on what reading any other path would give. -/
theorem C2_exactly_the_templates (w : World M A E) (model : M) (dir : String)
    (files : List DirEntry) (hd : w.ReadDir dir = .ok files)
    (hok : ∀ file ∈ files, isTemplateFile file = true → ∃ sa, Loads w model dir file sa) :
    ∃ agents, (loadSubAgents w model dir).1 = (agents, none) ∧
      agents.length = files.countP (fun file => !file.IsDir && HasSuffix file.Name ".tmpl") ∧
      List.Forall₂ (Loads w model dir) (files.filter isTemplateFile) agents ∧
      readPaths (loadSubAgents w model dir).2 =
        (files.filter isTemplateFile).map (fun file => w.Join dir file.Name) ∧
      ∀ w2 : World M A E, w2.ReadDir = w.ReadDir → w2.Join = w.Join → w2.New = w.New →
        (∀ file ∈ files, isTemplateFile file = true →
          w2.ReadFile (w.Join dir file.Name) = w.ReadFile (w.Join dir file.Name)) →
        (loadSubAgents w2 model dir).1 = (agents, none) := by
  obtain ⟨agents, hall⟩ := forall₂_of_forall_exists (Loads w model dir)
    (files.filter isTemplateFile) (fun file hf =>
      hok file (List.mem_of_mem_filter hf) (List.of_mem_filter hf))
  refine ⟨agents, (loadSubAgents_ok_iff w model dir agents).2 ⟨files, hd, hall⟩, ?_, hall,
    (loadSubAgents_ok_calls w model dir files agents hd hall).1, ?_⟩
  · rw [← hall.length_eq, List.countP_eq_length_filter]
    rfl
  · intro w2 h1 h2 h3 h4
    refine (loadSubAgents_ok_iff w2 model dir agents).2 ⟨files, by rw [h1]; exact hd, ?_⟩
    refine forall₂_imp_of_mem _ _ _ _ hall ?_
    rintro file hf sa ⟨content, hr, hn⟩
    refine ⟨content, ?_, by rw [h3]; exact hn⟩
    rw [h2, h4 file (List.mem_of_mem_filter hf) (List.of_mem_filter hf)]
    exact hr

/-- C2 evaluated on a listing with two template files, one other file that
cannot even be read, and a subdirectory named like a template: two agents,
two reads. -/
theorem C2_exactly_the_templates_witness :
    ∃ agents, (loadSubAgents demoWorld () subAgentsDir).1 = (agents, none) ∧
      agents.length = 2 ∧
      readPaths (loadSubAgents demoWorld () subAgentsDir).2 =
        ["templates/sub-agents/service.tmpl", "templates/sub-agents/deployment.tmpl"] := by
  obtain ⟨agents, h1, h2, -, h4, -⟩ := C2_exactly_the_templates demoWorld () subAgentsDir
    demoListing rfl (by
      intro file hf ht
      simp only [demoListing, List.mem_cons, List.mem_singleton, List.not_mem_nil,
        or_false] at hf
      rcases hf with rfl | rfl | rfl | rfl
      · exact ⟨_, "S", rfl, rfl⟩
      · exact absurd ht (by decide)
      · exact absurd ht (by decide)
      · exact ⟨_, "T", rfl, rfl⟩)
  exact ⟨agents, h1, h2, h4⟩

/-- C3: for a regular file `n ++ ".tmpl"` of the listing whose content is `T`,
the configuration that `loadSubAgents` builds has name `n`, instruction `T`
and a description containing `n`; `llmagent.New` is called with it as soon as
the files listed before it have loaded, and when the load ends without error
the agent this call produced is among the returned agents. -/
theorem C3_name_instruction_description (w : World M A E) (model : M) (dir : String)
    (files : List DirEntry) (file : DirEntry) (n T : String)
    (hd : w.ReadDir dir = .ok files) (hmem : file ∈ files) (hreg : file.IsDir = false)
    (hname : file.Name = n ++ ".tmpl") (hT : w.ReadFile (w.Join dir file.Name) = .ok T) :
    (subAgentConfig model file.Name T : Config M A).Name = n ∧
      (subAgentConfig model file.Name T : Config M A).Instruction = T ∧
      Contains (subAgentConfig model file.Name T : Config M A).Description n ∧
      (∀ pre post loaded, files = pre ++ file :: post →
        List.Forall₂ (Loads w model dir) (pre.filter isTemplateFile) loaded →
        Event.LlmagentNew (subAgentConfig model file.Name T) ∈ (loadSubAgents w model dir).2) ∧
      (∀ agents, (loadSubAgents w model dir).1 = (agents, none) →
        ∃ sa ∈ agents, w.New (subAgentConfig model file.Name T) = .ok sa) := by
  have ht : isTemplateFile file = true := by
    simp [isTemplateFile, hreg, hname, hasSuffix_append]
  have hn : TrimSuffix file.Name ".tmpl" = n := by rw [hname, trimSuffix_append]
  refine ⟨hn, rfl, ?_, ?_, ?_⟩
  · show Contains ("Specialist agent for generating " ++ TrimSuffix file.Name ".tmpl" ++
      " Kubernetes manifests.") n
    rw [hn]
    exact contains_middle _ _ _
  · intro pre post loaded hsplit hl
    subst hsplit
    obtain ⟨calls, h1, -, -⟩ := loadLoop_append w model dir pre (file :: post) [] loaded hl
    rw [loadSubAgents_of_readDir_ok w model dir _ hd, h1]
    apply List.mem_cons_of_mem
    apply List.mem_append_right
    cases hnew : w.New (subAgentConfig model file.Name T) with
    | error e =>
      rw [loadLoop_newError w model dir file post _ T e ht hT hnew]
      simp
    | ok sa =>
      rw [loadLoop_load w model dir file post _ T sa ht hT hnew]
      simp
  · intro agents hok
    obtain ⟨files0, hd0, hall⟩ := (loadSubAgents_ok_iff w model dir agents).1 hok
    rw [hd] at hd0
    cases hd0
    obtain ⟨sa, hsa, content, hr, hnew⟩ := forall₂_exists_of_mem _ _ _ hall file
      (List.mem_filter.2 ⟨hmem, ht⟩)
    rw [hT] at hr
    cases hr
    exact ⟨sa, hsa, hnew⟩

/-- C3 evaluated: `deployment.tmpl` containing "T" gives the name
"deployment", the instruction "T" and a description containing "deployment". -/
theorem C3_name_instruction_description_witness :
    (subAgentConfig () "deployment.tmpl" "T" : Config Unit SimAgent).Name = "deployment" ∧
      (subAgentConfig () "deployment.tmpl" "T" : Config Unit SimAgent).Instruction = "T" ∧
      Contains (subAgentConfig () "deployment.tmpl" "T" : Config Unit SimAgent).Description
        "deployment" :=
  have h := C3_name_instruction_description demoWorld () subAgentsDir demoListing
    ⟨"deployment.tmpl", false⟩ "deployment" "T" rfl (by decide) rfl rfl rfl
  ⟨h.1, h.2.1, h.2.2.1⟩

/-- C5: when `loadSubAgents` ends without error, the returned agents are the
results of its calls of `llmagent.New`, in order, and the names given to these
calls are the names of the listing, restricted to the non-directory entries
ending in ".tmpl", with that suffix stripped, in the order of the listing,
whatever that order is. -/
theorem C5_listing_order (w : World M A E) (model : M) (dir : String) (agents : List A)
    (h : (loadSubAgents w model dir).1 = (agents, none)) :
    ∃ files, w.ReadDir dir = .ok files ∧
      List.Forall₂ (fun cfg sa => w.New cfg = .ok sa)
        (newConfigs (loadSubAgents w model dir).2) agents ∧
      (newConfigs (loadSubAgents w model dir).2).map (fun cfg => cfg.Name) =
        ((files.filter (fun file => !file.IsDir && HasSuffix file.Name ".tmpl")).map
          (fun file => file.Name)).map (fun name => TrimSuffix name ".tmpl") ∧
      (newConfigs (loadSubAgents w model dir).2).map (fun cfg => cfg.Name ++ ".tmpl") =
        (files.filter (fun file => !file.IsDir && HasSuffix file.Name ".tmpl")).map
          (fun file => file.Name) := by
  obtain ⟨files, hd, hcfg, hnew⟩ := loadSubAgents_ok_configs w model dir agents h
  refine ⟨files, hd, hnew, ?_, ?_⟩
  · rw [List.map_map]
    refine (forall₂_map_eq _ _ _ _ _ hcfg ?_).symm
    rintro file cfg ⟨content, -, rfl⟩
    rfl
  · refine (forall₂_map_eq _ _ _ _ _
      (forall₂_imp_of_mem _ (fun file cfg => file.Name = cfg.Name ++ ".tmpl") _ _ hcfg ?_)
      (fun _ _ hab => hab)).symm
    rintro file hf cfg ⟨content, -, rfl⟩
    have ht : isTemplateFile file = true := List.of_mem_filter hf
    have hs : HasSuffix file.Name ".tmpl" = true := by
      simp only [isTemplateFile, Bool.and_eq_true] at ht
      exact ht.2
    exact (trimSuffix_append_of_hasSuffix file.Name ".tmpl" hs).symm

/-- C5 evaluated on the unsorted demonstration listing: `service` comes
before `deployment`, as in the listing. -/
theorem C5_listing_order_witness :
    ∃ files, demoWorld.ReadDir subAgentsDir = .ok files ∧
      (newConfigs (loadSubAgents demoWorld () subAgentsDir).2).map (fun cfg => cfg.Name) =
        ["service", "deployment"] ∧
      (loadSubAgents demoWorld () subAgentsDir).1.1.map (fun sa => sa.Name) =
        ["service", "deployment"] := by
  obtain ⟨files, h1, -, -, -⟩ := C5_listing_order demoWorld () subAgentsDir
    [⟨"service", "Specialist agent for generating service Kubernetes manifests.", "S", 0⟩,
      ⟨"deployment", "Specialist agent for generating deployment Kubernetes manifests.", "T", 0⟩]
    (by decide)
  exact ⟨files, h1, by decide, by decide⟩

/-- C8 as stated fails: on the demonstration listing the descriptions given
to `llmagent.New` are not of the form "specialist for generating n manifests". -/
theorem C8_counterexample :
    ¬ ∀ cfg ∈ newConfigs (loadSubAgents demoWorld () subAgentsDir).2,
      cfg.Description = "specialist for generating " ++ cfg.Name ++ " manifests" := by
  decide

/-- C8, amended: every configuration that `loadSubAgents` gives to
`llmagent.New` belongs to a template file of the listing, its name is the
name of that file with the suffix trimmed, and its description is
"Specialist agent for generating ", then that name, then
" Kubernetes manifests.", with nothing else. -/
theorem C8_description_text (w : World M A E) (model : M) (dir : String) (cfg : Config M A)
    (h : cfg ∈ newConfigs (loadSubAgents w model dir).2) :
    cfg.Description =
        "Specialist agent for generating " ++ cfg.Name ++ " Kubernetes manifests." ∧
      ∃ files file, w.ReadDir dir = .ok files ∧ file ∈ files ∧ file.IsDir = false ∧
        HasSuffix file.Name ".tmpl" = true ∧ cfg.Name = TrimSuffix file.Name ".tmpl" := by
  rw [mem_newConfigs] at h
  rcases loadSubAgents_calls w model dir _ h with h0 | ⟨files, file, hd, hf, ht, hcall⟩
  · cases h0
  · simp only [isTemplateFile, Bool.and_eq_true, Bool.not_eq_true'] at ht
    rcases hcall with h0 | ⟨content, -, h0 | h0⟩
    · cases h0
    · cases h0
    · cases h0
      exact ⟨rfl, files, file, hd, hf, ht.1, ht.2, rfl⟩

/-- C8 evaluated: the description generated for `deployment.tmpl`. -/
theorem C8_description_text_witness :
    (subAgentConfig () "deployment.tmpl" "T" : Config Unit SimAgent).Description =
      "Specialist agent for generating deployment Kubernetes manifests." :=
  (C8_description_text demoWorld () subAgentsDir (subAgentConfig () "deployment.tmpl" "T")
    (by decide)).1

/-- C9: the naming step strips the suffix once and can be undone.  When
`loadSubAgents` ends without error, each name given to `llmagent.New`,
followed by ".tmpl", is the name of the file it was derived from, and if the
names of the listing are pairwise distinct then so are the names of the
agents; trimming `n ++ ".tmpl"` gives `n`, whatever `n` is. -/
theorem C9_strip_once (w : World M A E) (model : M) (dir : String) (agents : List A)
    (h : (loadSubAgents w model dir).1 = (agents, none)) :
    ∃ files, w.ReadDir dir = .ok files ∧
      List.Forall₂ (fun cfg sa => w.New cfg = .ok sa)
        (newConfigs (loadSubAgents w model dir).2) agents ∧
      List.Forall₂ (fun file cfg => cfg.Name = TrimSuffix file.Name ".tmpl" ∧
          cfg.Name ++ ".tmpl" = file.Name)
        (files.filter isTemplateFile) (newConfigs (loadSubAgents w model dir).2) ∧
      ((files.map (fun file => file.Name)).Nodup →
        ((newConfigs (loadSubAgents w model dir).2).map (fun cfg => cfg.Name)).Nodup) ∧
      (∀ n : String, TrimSuffix (n ++ ".tmpl") ".tmpl" = n) := by
  obtain ⟨files, hd, hcfg, hnew⟩ := loadSubAgents_ok_configs w model dir agents h
  have hinv : List.Forall₂ (fun file cfg => cfg.Name = TrimSuffix file.Name ".tmpl" ∧
      cfg.Name ++ ".tmpl" = file.Name)
      (files.filter isTemplateFile) (newConfigs (loadSubAgents w model dir).2) := by
    refine forall₂_imp_of_mem _ _ _ _ hcfg ?_
    rintro file hf cfg ⟨content, -, rfl⟩
    have ht : isTemplateFile file = true := List.of_mem_filter hf
    have hs : HasSuffix file.Name ".tmpl" = true := by
      simp only [isTemplateFile, Bool.and_eq_true] at ht
      exact ht.2
    exact ⟨rfl, trimSuffix_append_of_hasSuffix file.Name ".tmpl" hs⟩
  refine ⟨files, hd, hnew, hinv, ?_, fun n => trimSuffix_append n ".tmpl"⟩
  intro hnodup
  have hsub : ((files.filter isTemplateFile).map (fun file => file.Name)).Nodup :=
    hnodup.sublist ((List.filter_sublist files).map _)
  have hmap : (files.filter isTemplateFile).map (fun file => file.Name) =
      ((newConfigs (loadSubAgents w model dir).2).map (fun cfg => cfg.Name)).map
        (fun n => n ++ ".tmpl") := by
    rw [List.map_map]
    exact forall₂_map_eq _ _ _ _ _ hinv (fun _ _ hab => hab.2.symm)
  rw [hmap] at hsub
  exact List.Nodup.of_map _ hsub

/-- C9 evaluated: "a.tmpl.tmpl" gives "a.tmpl", ".tmpl" gives the empty
name, and the two names are distinct. -/
theorem C9_strip_once_witness :
    (newConfigs (loadSubAgents oddWorld () subAgentsDir).2).map (fun cfg => cfg.Name) =
        ["a.tmpl", ""] ∧
      ((newConfigs (loadSubAgents oddWorld () subAgentsDir).2).map (fun cfg => cfg.Name)).Nodup := by
  obtain ⟨files, hd, -, -, hnodup, -⟩ := C9_strip_once oddWorld () subAgentsDir
    [⟨"a.tmpl", "Specialist agent for generating a.tmpl Kubernetes manifests.", "A", 0⟩,
      ⟨"", "Specialist agent for generating  Kubernetes manifests.", "B", 0⟩]
    (by decide)
  have hfiles : files = [⟨"a.tmpl.tmpl", false⟩, ⟨".tmpl", false⟩] :=
    (Except.ok.inj hd).symm
  subst hfiles
  exact ⟨by decide, hnodup (by decide)⟩

/-- C6: the launcher is invoked exactly when the four steps before it (create
the model, load the sub-agents, read the root template, create the root agent)
all succeeded; otherwise the run ends in `log.Fatalf`.  In particular, when
the root template cannot be read the run ends in `log.Fatalf` with no launcher
call and no call of `llmagent.New` with a root configuration, and if the model
and the sub-agents were obtained the fatal message is the one of that read. -/
theorem C6_no_launch_after_failure (w : World M A E) :
    (executions (main w).2 ≠ [] ↔
      ∃ model subAgents rootInstruction rootAgent,
        w.NewModel modelName (clientConfig w) = .ok model ∧
        (loadSubAgents w model subAgentsDir).1 = (subAgents, none) ∧
        w.ReadFile rootTemplatePath = .ok rootInstruction ∧
        w.New (rootConfig model rootInstruction (agentTools subAgents)) = .ok rootAgent) ∧
    (executions (main w).2 = [] → ∃ msg err, (main w).1 = Outcome.Fatal msg err) ∧
    (∀ err, w.ReadFile rootTemplatePath = .error err →
      (∃ msg e, (main w).1 = Outcome.Fatal msg e) ∧
      executions (main w).2 = [] ∧
      (∀ model rootInstruction tools,
        rootConfig model rootInstruction tools ∉ newConfigs (main w).2) ∧
      (∀ model, w.NewModel modelName (clientConfig w) = .ok model →
        (loadSubAgents w model subAgentsDir).1.2 = none →
        (main w).1 = Outcome.Fatal "Failed to read root template: %v" err ∧
        (main w).2.getLast? = some (Event.Fatalf "Failed to read root template: %v" err))) := by
  cases hm : w.NewModel modelName (clientConfig w) with
  | error e =>
    have hx := executions_main_of_newModel_error w e hm
    have hmain := main_of_newModel_error w e hm
    refine ⟨?_, fun _ => ⟨_, _, by rw [hmain]⟩, fun err _ => ⟨⟨_, _, by rw [hmain]⟩, hx.1, ?_, ?_⟩⟩
    · constructor
      · intro h
        exact absurd hx.1 h
      · rintro ⟨_, _, _, _, h, -⟩
        cases h
    · intro m i t
      rw [hx.2]
      exact List.not_mem_nil _
    · intro m h
      cases h
  | ok model =>
    cases hl : (loadSubAgents w model subAgentsDir).1.2 with
    | some e =>
      have hx := executions_main_of_load_error w model e hm hl
      have hmain := main_of_load_error w model e hm hl
      refine ⟨?_, fun _ => ⟨_, _, by rw [hmain]⟩,
        fun err _ => ⟨⟨_, _, by rw [hmain]⟩, hx.1, ?_, ?_⟩⟩
      · constructor
        · intro h
          exact absurd hx.1 h
        · rintro ⟨m, sub, _, _, h1, h2, -⟩
          cases h1
          rw [h2] at hl
          cases hl
      · intro m i t
        rw [hx.2]
        exact rootConfig_not_mem_load w model m subAgentsDir i t
      · intro m h1 h2
        cases h1
        rw [hl] at h2
        cases h2
    | none =>
      cases hr : w.ReadFile rootTemplatePath with
      | error e =>
        have hx := executions_main_of_read_error w model e hm hl hr
        have hmain := main_of_read_error w model e hm hl hr
        refine ⟨?_, fun _ => ⟨_, _, by rw [hmain]⟩,
          fun err herr => ⟨⟨_, _, by rw [hmain]⟩, hx.1, ?_, ?_⟩⟩
        · constructor
          · intro h
            exact absurd hx.1 h
          · rintro ⟨_, _, _, _, -, -, h, -⟩
            cases h
        · intro m i t
          rw [hx.2]
          exact rootConfig_not_mem_load w model m subAgentsDir i t
        · intro m _ _
          cases herr
          rw [hmain]
          exact ⟨rfl, List.getLast?_concat _⟩
      | ok rootInstruction =>
        have hpair : ∀ sub, (loadSubAgents w model subAgentsDir).1 = (sub, none) →
            sub = (loadSubAgents w model subAgentsDir).1.1 := by
          intro sub h
          rw [h]
        cases hn : w.New (rootConfig model rootInstruction
            (agentTools (loadSubAgents w model subAgentsDir).1.1)) with
        | error e =>
          have hx := executions_main_of_new_error w model rootInstruction e hm hl hr hn
          have hmain := main_of_new_error w model rootInstruction e hm hl hr hn
          refine ⟨?_, fun _ => ⟨_, _, by rw [hmain]⟩, fun err herr => by cases herr⟩
          constructor
          · intro h
            exact absurd hx.1 h
          · rintro ⟨m, sub, i, a, h1, h2, h3, h4⟩
            cases h1
            cases h3
            rw [hpair sub h2, hn] at h4
            cases h4
        | ok rootAgent =>
          have hx := executions_main_of_new_ok w model rootInstruction rootAgent hm hl hr hn
          refine ⟨?_, fun h => ?_, fun err herr => by cases herr⟩
          · constructor
            · intro _
              exact ⟨model, (loadSubAgents w model subAgentsDir).1.1, rootInstruction, rootAgent,
                rfl, Prod.ext rfl hl, rfl, hn⟩
            · intro _
              rw [hx.1]
              exact List.cons_ne_nil _ _
          · rw [hx.1] at h
            cases h

/-- C6 evaluated: the model and both sub-agents are obtained, the root
template is missing; the run is fatal at that read and the launcher is not
called. -/
theorem C6_no_launch_after_failure_witness :
    (main rootlessWorld).1 =
        Outcome.Fatal "Failed to read root template: %v" "open templates/root.tmpl" ∧
      executions (main rootlessWorld).2 = [] :=
  have h := (C6_no_launch_after_failure rootlessWorld).2.2 "open templates/root.tmpl" rfl
  ⟨(h.2.2.2 () rfl (by decide)).1, h.2.1⟩

/-- C7: the tools that `main` builds are one `agenttool.New(sa, nil)` per
loaded sub-agent, in the order of the loaded list, so there are as many tools
as sub-agents, and they are the tools of the root configuration given to
`llmagent.New`; when the template directory holds no template file the loader
returns no agent and no error, the root configuration is built with no tool,
and the root agent made from it is the one handed to the launcher. -/
theorem C7_one_tool_per_sub_agent (w : World M A E) :
    (∀ subAgents : List A,
      agentTools subAgents = subAgents.map (fun sa => ({ agent := sa, cfg := none } : Tool A)) ∧
      (agentTools subAgents).length = subAgents.length) ∧
    (∀ model subAgents rootInstruction,
      w.NewModel modelName (clientConfig w) = .ok model →
      (loadSubAgents w model subAgentsDir).1 = (subAgents, none) →
      w.ReadFile rootTemplatePath = .ok rootInstruction →
      newConfigs (main w).2 = newConfigs (loadSubAgents w model subAgentsDir).2 ++
        [{ Name := "K8sOrchestrator"
           Model := model
           Description := "A specialized orchestrator for generating Kubernetes manifests. It delegates to sub-agents for specific resource types."
           Instruction := rootInstruction
           Tools := subAgents.map (fun sa => ({ agent := sa, cfg := none } : Tool A)) }]) ∧
    (∀ model files rootInstruction,
      w.NewModel modelName (clientConfig w) = .ok model →
      w.ReadDir subAgentsDir = .ok files →
      (∀ file ∈ files, file.IsDir = true ∨ HasSuffix file.Name ".tmpl" = false) →
      w.ReadFile rootTemplatePath = .ok rootInstruction →
      (loadSubAgents w model subAgentsDir).1 = ([], none) ∧
      newConfigs (main w).2 = [rootConfig model rootInstruction []] ∧
      (rootConfig model rootInstruction [] : Config M A).Tools.length = 0 ∧
      (∀ rootAgent, w.New (rootConfig model rootInstruction []) = .ok rootAgent →
        executions (main w).2 = [(LauncherConfig.mk rootAgent, w.Args.drop 1)])) := by
  have htools : ∀ subAgents : List A,
      agentTools subAgents = subAgents.map (fun sa => ({ agent := sa, cfg := none } : Tool A)) :=
    fun subAgents => agentTools_eq_map subAgents
  refine ⟨fun subAgents => ⟨htools subAgents, by rw [htools, List.length_map]⟩, ?_, ?_⟩
  · intro model subAgents rootInstruction hm hl hr
    have hl2 : (loadSubAgents w model subAgentsDir).1.2 = none := by rw [hl]
    have hl1 : (loadSubAgents w model subAgentsDir).1.1 = subAgents := by rw [hl]
    rw [newConfigs_main_of_read_ok w model rootInstruction hm hl2 hr, hl1, htools]
    rfl
  · intro model files rootInstruction hm hd hnone hr
    have hfilter : files.filter isTemplateFile = [] := by
      apply List.filter_eq_nil_iff.2
      intro file hf
      rcases hnone file hf with h | h <;> simp [isTemplateFile, h]
    have hl : (loadSubAgents w model subAgentsDir).1 = ([], none) :=
      (loadSubAgents_ok_iff w model subAgentsDir []).2
        ⟨files, hd, by rw [hfilter]; exact List.Forall₂.nil⟩
    have hl2 : (loadSubAgents w model subAgentsDir).1.2 = none := by rw [hl]
    have hl1 : (loadSubAgents w model subAgentsDir).1.1 = [] := by rw [hl]
    have hcfg := (loadSubAgents_ok_calls w model subAgentsDir files [] hd
      (by rw [hfilter]; exact List.Forall₂.nil)).2
    rw [hfilter] at hcfg
    have hnil : newConfigs (loadSubAgents w model subAgentsDir).2 = [] :=
      List.forall₂_nil_left_iff.1 hcfg
    refine ⟨hl, ?_, rfl, ?_⟩
    · rw [newConfigs_main_of_read_ok w model rootInstruction hm hl2 hr, hnil, hl1]
      rfl
    · intro rootAgent hn
      have hn2 : w.New (rootConfig model rootInstruction
          (agentTools (loadSubAgents w model subAgentsDir).1.1)) = .ok rootAgent := by
        rw [hl1]
        exact hn
      exact (executions_main_of_new_ok w model rootInstruction rootAgent hm hl2 hr hn2).1

/-- C7 evaluated: with no template file the root agent is built with zero
tools and launched; with two template files it gets two tools, in the order
of the loaded sub-agents. -/
theorem C7_one_tool_per_sub_agent_witness :
    (loadSubAgents emptyWorld () subAgentsDir).1 = ([], none) ∧
      newConfigs (main emptyWorld).2 = [rootConfig () "R" []] ∧
      executions (main emptyWorld).2 =
        [(LauncherConfig.mk
            ⟨"K8sOrchestrator", "A specialized orchestrator for generating Kubernetes manifests. It delegates to sub-agents for specific resource types.", "R", 0⟩,
          ["console"])] ∧
      (newConfigs (main demoWorld).2).map (fun cfg => cfg.Tools.map (fun t => t.agent.Name)) =
        [[], [], ["service", "deployment"]] := by
  have h := (C7_one_tool_per_sub_agent emptyWorld).2.2 () [⟨"README.md", false⟩, ⟨"old.tmpl", true⟩]
    "R" rfl rfl (by decide) rfl
  exact ⟨h.1, h.2.1, h.2.2.2 _ rfl, by decide⟩

end Claims

end GkeAgent
